import Mathlib

/-!
Verification of `src/ceviche/utils.py` (repository cclauss/ceviche).

The file shallowly embeds the numeric-differentiation layer of the repository:
`grad_num` (utils.py lines 19-40), `vjp_maker_num` with its nested closures
`vjp_single_arg` / `vjp_maker` / `vjp` (lines 78-112), and `jacobian_forward`
(lines 118-132).  numpy `float64` values are modelled by an exact scalar type:
claims about ideal real arithmetic are proved over `ℚ`, and claims about
IEEE division by zero over `Val`, a finite/non-finite abstraction of doubles.
Mutation of numpy buffers is modelled separately by a store-passing embedding
(`Store`, `grad_num_st`, `vjp_st`) used for the frame property; the lemmas
`grad_num_st_agrees` and `vjp_st_agrees` prove that reading the store-level
results back out yields exactly the pure embeddings, so the two views are
consistent.
-/

/-- An n-dimensional numpy array: a shape together with the row-major flat
buffer contents.  numpy maintains `data.length = shape.prod`; theorems that
need this invariant take it as a hypothesis. -/
structure NDArr (α : Type) where
  shape : List ℕ
  data : List α
deriving DecidableEq, Repr

/-- The empty (size-0) array, used only as an out-of-range `getD` default. -/
def NDArr.empty {α : Type} : NDArr α := ⟨[], []⟩

instance {α : Type} : Inhabited (NDArr α) := ⟨NDArr.empty⟩

/-- numpy `a.size`: the product of the dimensions. -/
def NDArr.size {α : Type} (a : NDArr α) : ℕ := a.shape.prod

/-- numpy `a.ravel()`: the flat 1-d array over the same elements (the view /
copy distinction is invisible at the value level; it is modelled by the
store-passing embedding below). -/
def NDArr.ravel {α : Type} (a : NDArr α) : NDArr α := ⟨[a.size], a.data⟩

/-- numpy `a.flatten()`: like `ravel` but always a fresh copy; identical at
the value level. -/
def NDArr.flatten {α : Type} (a : NDArr α) : NDArr α := ⟨[a.size], a.data⟩

/-- numpy `a.reshape(s)`: same buffer reinterpreted under shape `s`.  numpy
checks `s.prod = a.size`; every call site in utils.py reshapes to a shape of
exactly the buffer's size, so the check is elided here. -/
def NDArr.reshape {α : Type} (a : NDArr α) (s : List ℕ) : NDArr α := ⟨s, a.data⟩

/-- Elementwise subtraction of same-shaped arrays (numpy `x - y`; broadcasting
of unequal shapes is outside the claims and not modelled). -/
def NDArr.sub {α : Type} [Sub α] (a b : NDArr α) : NDArr α :=
  ⟨a.shape, List.zipWith (fun x y => x - y) a.data b.data⟩

/-- Elementwise product of same-shaped arrays (numpy `x * y`). -/
def NDArr.emul {α : Type} [Mul α] (a b : NDArr α) : NDArr α :=
  ⟨a.shape, List.zipWith (fun x y => x * y) a.data b.data⟩

/-- Array divided by a scalar (numpy `x / s`). -/
def NDArr.divS {α : Type} [Div α] (a : NDArr α) (s : α) : NDArr α :=
  ⟨a.shape, a.data.map (fun x => x / s)⟩

/-- Array added elementwise to a same-shaped array (numpy `x + y`). -/
def NDArr.add {α : Type} [Add α] (a b : NDArr α) : NDArr α :=
  ⟨a.shape, List.zipWith (fun x y => x + y) a.data b.data⟩

/-- Scalar times array (numpy `c * x`). -/
def NDArr.smul {α : Type} [Mul α] (c : α) (a : NDArr α) : NDArr α :=
  ⟨a.shape, a.data.map (fun x => c * x)⟩

/-- numpy `np.sum(x)`: the sum of all entries (`0.0` on an empty array). -/
def npSum {α : Type} [Add α] [Zero α] (a : NDArr α) : α :=
  a.data.foldr (fun x acc => x + acc) 0

/-- Python exceptions that the embedded code can raise. -/
inductive PyErr where
  | nameError
  | attributeError
  | indexError
deriving DecidableEq, Repr

/-- The `step_size` argument of `grad_num`: the code dispatches on the Python
runtime type (`type(step_size) == float`), so the embedding keeps the type
tag.  `pyFloat` is a Python `float`, `pyInt` a Python `int`, `ndarray` a numpy
array. -/
inductive StepSize (α : Type) where
  | pyFloat (s : α)
  | pyInt (n : ℤ)
  | ndarray (a : NDArr α)

/-- Lines 29-32 of utils.py: `step = step_size*np.ones((N))` when
`type(step_size) == float`, otherwise `step = step_size.ravel()`.  A Python
`int` has no `.ravel()` attribute, so the non-float scalar branch raises
`AttributeError`. -/
def grad_num_step {α : Type} (step_size : StepSize α) (N : ℕ) :
    Except PyErr (List α) :=
  match step_size with
  | .pyFloat s => .ok (List.replicate N s)
  | .pyInt _ => .error .attributeError
  | .ndarray a => .ok a.ravel.data

/-- Lines 35-38 of utils.py, the body of one iteration of `grad_num`'s loop:
`arg_new = copy.copy(arg.ravel()); arg_new[i] += step[i];
f_new_i = fn(arg_new.reshape(shape)); (f_new_i - f_old) / step[i]`.
`copy.copy` affects only aliasing, which the pure embedding does not track. -/
def grad_entry {α : Type} [Add α] [Sub α] [Div α] [Zero α]
    (fn : NDArr α → α) (arg : NDArr α) (step : List α) (f_old : α) (i : ℕ) : α :=
  let arg_new := arg.ravel.data.set i (arg.ravel.data.getD i 0 + step.getD i 0)
  let f_new_i := fn ((NDArr.mk [arg.size] arg_new).reshape arg.shape)
  (f_new_i - f_old) / step.getD i 0

/-- Lines 19-40 of utils.py: `grad_num(fn, arg, step_size)`, numerical
differentiation of `fn` with respect to `arg`. -/
def grad_num {α : Type} [Add α] [Sub α] [Div α] [Zero α]
    (fn : NDArr α → α) (arg : NDArr α) (step_size : StepSize α) :
    Except PyErr (NDArr α) :=
  let N := arg.size
  let f_old := fn arg
  (grad_num_step step_size N).map (fun step =>
    ⟨arg.shape,
      (List.range N).foldl (fun g i => g.set i (grad_entry fn arg step f_old i))
        (List.replicate N 0)⟩)

/-! Helper lemmas about the `for i in range(N): buf[i] = e(i)` write pattern,
which both `grad_num` and the inner `vjp` loop use. -/

lemma foldl_set_length {α : Type} (e : ℕ → α) (idxs : List ℕ) (l : List α) :
    (idxs.foldl (fun g i => g.set i (e i)) l).length = l.length := by
  induction idxs generalizing l with
  | nil => rfl
  | cons i rest ih => simp [List.foldl_cons, ih]

lemma foldl_set_getD_not_mem {α : Type} (e : ℕ → α) (idxs : List ℕ) (l : List α)
    (j : ℕ) (d : α) (h : j ∉ idxs) :
    (idxs.foldl (fun g i => g.set i (e i)) l).getD j d = l.getD j d := by
  induction idxs generalizing l with
  | nil => rfl
  | cons i rest ih =>
      simp only [List.foldl_cons]
      rw [ih _ (fun hc => h (List.mem_cons_of_mem i hc))]
      have hne : i ≠ j := fun hc => h (hc ▸ List.mem_cons_self i rest)
      simp [List.getD, List.getElem?_set_ne hne]

lemma foldl_set_getD_mem {α : Type} (e : ℕ → α) (idxs : List ℕ) (l : List α)
    (j : ℕ) (d : α) (hnd : idxs.Nodup) (hmem : j ∈ idxs) (hlt : j < l.length) :
    (idxs.foldl (fun g i => g.set i (e i)) l).getD j d = e j := by
  induction idxs generalizing l with
  | nil => cases hmem
  | cons i rest ih =>
      simp only [List.foldl_cons]
      rcases List.mem_cons.mp hmem with hj | hj
      · subst hj
        rw [foldl_set_getD_not_mem _ _ _ _ _ (List.Nodup.not_mem hnd)]
        simp [List.getD, List.getElem?_set_self, hlt]
      · exact ih (l.set i (e i)) (List.Nodup.of_cons hnd) hj
          (by simpa using hlt)

/-- The loop `buf = replicate N 0; for i in range(N): buf[i] = e(i)` fills the
buffer with `e 0, …, e (N-1)`. -/
lemma foldl_set_range_eq_map {α : Type} (e : ℕ → α) (N : ℕ) (z : α) :
    (List.range N).foldl (fun g i => g.set i (e i)) (List.replicate N z) =
      (List.range N).map e := by
  apply List.ext_get
  · rw [foldl_set_length]; simp
  · intro i h1 h2
    have hlen : ((List.range N).foldl (fun g i => g.set i (e i))
        (List.replicate N z)).length = N := by rw [foldl_set_length]; simp
    have hiN : i < N := by rwa [hlen] at h1
    have hget := foldl_set_getD_mem e (List.range N) (List.replicate N z) i z
      (List.nodup_range N) (List.mem_range.mpr hiN) (by simpa using hiN)
    calc ((List.range N).foldl (fun g i => g.set i (e i))
            (List.replicate N z)).get ⟨i, h1⟩
        = ((List.range N).foldl (fun g i => g.set i (e i))
            (List.replicate N z)).getD i z := by
          rw [List.getD_eq_getElem _ _ (by omega)]; simp [List.get_eq_getElem]
      _ = e i := hget
      _ = ((List.range N).map e).get ⟨i, h2⟩ := by
          simp [List.get_eq_getElem, hiN]

/-- Lines 95-98 of utils.py: the argument list passed to `fn` in one iteration
of the `vjp` loop: `args_new = list(args); args_rav = args[arg_ind].flatten();
args_rav[ip] += step; args_new[arg_ind] = args_rav.reshape(shape)`. -/
def vjp_args_new {α : Type} [Add α] [Zero α] (args : List (NDArr α))
    (arg_ind : ℕ) (step : α) (shape : List ℕ) (ip : ℕ) : List (NDArr α) :=
  let args_rav := (args.getD arg_ind NDArr.empty).flatten
  let args_rav2 := NDArr.mk args_rav.shape
    (args_rav.data.set ip (args_rav.data.getD ip 0 + step))
  args.set arg_ind (args_rav2.reshape shape)

/-- Lines 95-100 of utils.py: one iteration of the `vjp` loop produces
`np.sum(v * dfn_darg)` with `dfn_darg = (fn(*args_new) - fn_out)/step`. -/
def vjp_entry {α : Type} [Add α] [Sub α] [Mul α] [Div α] [Zero α]
    (fn : List (NDArr α) → NDArr α) (args : List (NDArr α)) (arg_ind : ℕ)
    (step : α) (shape : List ℕ) (fn_out : NDArr α) (v : NDArr α) (ip : ℕ) : α :=
  let dfn_darg := ((fn (vjp_args_new args arg_ind step shape ip)).sub fn_out).divS step
  npSum (v.emul dfn_darg)

/-- Lines 91-102 of utils.py: the closure `vjp(v)`; `vjp_num = np.zeros(num_p)`
is filled by the perturbation loop and returned un-reshaped (shape `(num_p,)`). -/
def vjp {α : Type} [Add α] [Sub α] [Mul α] [Div α] [Zero α]
    (fn : List (NDArr α) → NDArr α) (args : List (NDArr α)) (arg_ind : ℕ)
    (step : α) (shape : List ℕ) (num_p : ℕ) (fn_out : NDArr α) (v : NDArr α) :
    NDArr α :=
  ⟨[num_p],
    (List.range num_p).foldl
      (fun vn ip => vn.set ip (vjp_entry fn args arg_ind step shape fn_out v ip))
      (List.replicate num_p 0)⟩

/-- Lines 82-106 of utils.py: `vjp_single_arg(ia)` closes over
`arg_ind = arg_inds[ia]` and `step = steps[ia]`; the inner `vjp_maker(fn_out,
*args)` evaluates `args[arg_ind].shape` and `args[arg_ind].size` — a Python
tuple lookup that raises `IndexError` when `arg_ind` is out of range — and
returns the `vjp` closure.  (Negative Python indices are not modelled; the
claims use non-negative positions.) -/
def vjp_maker {α : Type} [Add α] [Sub α] [Mul α] [Div α] [Zero α]
    (fn : List (NDArr α) → NDArr α) (arg_inds : List ℕ) (steps : List α)
    (ia : ℕ) (fn_out : NDArr α) (args : List (NDArr α)) :
    Except PyErr (NDArr α → NDArr α) :=
  let arg_ind := arg_inds.getD ia 0
  if h : arg_ind < args.length then
    let a := args.get ⟨arg_ind, h⟩
    Except.ok (vjp fn args arg_ind (steps.getD ia 0) a.shape a.size fn_out)
  else Except.error .indexError

/-- Lines 78-112 of utils.py: `vjp_maker_num(fn, arg_inds, steps)` builds the
tuple `(vjp_single_arg(ia=0), vjp_single_arg(ia=1), …)`.  Construction only
reads `arg_inds[ia]` and `steps[ia]` for `ia < len(arg_inds)`; it performs no
validation of the argument positions against `fn`. -/
def vjp_maker_num {α : Type} [Add α] [Sub α] [Mul α] [Div α] [Zero α]
    (fn : List (NDArr α) → NDArr α) (arg_inds : List ℕ) (steps : List α) :
    List (NDArr α → List (NDArr α) → Except PyErr (NDArr α → NDArr α)) :=
  (List.range arg_inds.length).map (fun ia => vjp_maker fn arg_inds steps ia)

/-- The `getD` default used when reading a generator out of the tuple returned
by `vjp_maker_num`. -/
def dfltMaker {α : Type} :
    NDArr α → List (NDArr α) → Except PyErr (NDArr α → NDArr α) :=
  fun _ _ => Except.error .indexError

lemma vjp_maker_num_getD {α : Type} [Add α] [Sub α] [Mul α] [Div α] [Zero α]
    (fn : List (NDArr α) → NDArr α) (arg_inds : List ℕ) (steps : List α)
    (ia : ℕ) (hia : ia < arg_inds.length) :
    (vjp_maker_num fn arg_inds steps).getD ia dfltMaker =
      vjp_maker fn arg_inds steps ia := by
  unfold vjp_maker_num
  rw [List.getD_eq_getElem _ _ (by simpa using hia)]
  simp [hia]

/-! Spec-side definitions.  These follow the wording of spec.md, not the code,
and are compared against the embedded code in the claim theorems. -/

/-- From the spec's words (§4.1): "a perturbed copy of the flattened argument
with entry `i` incremented by `step[i]`, reshaped to `S`" — that is, `arg`
with flat entry `i` incremented by `d`. -/
def perturbEntry {α : Type} [Add α] [Zero α] (arg : NDArr α) (i : ℕ) (d : α) :
    NDArr α :=
  ⟨arg.shape, arg.data.set i (arg.data.getD i 0 + d)⟩

/-- From the spec's words (§4.2): "a copy of argument `k` with entry `p`
incremented by the configured step … leaving all other arguments at their
original values". -/
def perturbArg {α : Type} [Add α] [Zero α] (args : List (NDArr α)) (k p : ℕ)
    (d : α) : List (NDArr α) :=
  args.set k (perturbEntry (args.getD k NDArr.empty) p d)

/-- Characterization of a successful `grad_num` run: the returned gradient has
the argument's shape, one entry per parameter, and entry `i` is produced by
iteration `i` of the loop. -/
lemma grad_num_ok_entries {α : Type} [Add α] [Sub α] [Div α] [Zero α]
    (fn : NDArr α → α) (arg : NDArr α) (ss : StepSize α) (step : List α)
    (hst : grad_num_step ss arg.size = .ok step) :
    ∃ g, grad_num fn arg ss = .ok g ∧ g.shape = arg.shape ∧
      g.data.length = arg.size ∧
      ∀ i, i < arg.size → g.data.getD i 0 = grad_entry fn arg step (fn arg) i := by
  refine ⟨⟨arg.shape, (List.range arg.size).map
    (grad_entry fn arg step (fn arg))⟩, ?_, rfl, by simp, ?_⟩
  · simp only [grad_num, hst, Except.map]
    rw [foldl_set_range_eq_map]
  · intro i hi
    simp [List.getD, List.getElem?_map, List.getElem?_range hi]

lemma grad_entry_eq_perturb {α : Type} [Add α] [Sub α] [Div α] [Zero α]
    (fn : NDArr α → α) (arg : NDArr α) (step : List α) (f_old : α) (i : ℕ) :
    grad_entry fn arg step f_old i =
      (fn (perturbEntry arg i (step.getD i 0)) - f_old) / step.getD i 0 := rfl

/-- C2: for a scalar-valued `fn`, an argument of shape `S` with `N` entries and
a nonzero step (a Python-float scalar, or an array of shape `S`), `grad_num`
returns an array of shape `S` whose entry at linear index `i` is
`(fn(arg with flat entry i incremented by step[i]) - fn(arg)) / step[i]`. -/
theorem grad_num_matches_spec (fn : NDArr ℚ → ℚ) (arg : NDArr ℚ)
    (hwf : arg.data.length = arg.size) :
    (∀ s : ℚ, s ≠ 0 →
      ∃ g, grad_num fn arg (.pyFloat s) = Except.ok g ∧
        g.shape = arg.shape ∧ g.data.length = arg.size ∧
        ∀ i, i < arg.size →
          g.data.getD i 0 = (fn (perturbEntry arg i s) - fn arg) / s) ∧
    (∀ st : NDArr ℚ, st.shape = arg.shape → st.data.length = arg.size →
      (∀ i, i < arg.size → st.data.getD i 0 ≠ 0) →
      ∃ g, grad_num fn arg (.ndarray st) = Except.ok g ∧
        g.shape = arg.shape ∧ g.data.length = arg.size ∧
        ∀ i, i < arg.size →
          g.data.getD i 0 =
            (fn (perturbEntry arg i (st.data.getD i 0)) - fn arg) /
              st.data.getD i 0) := by
  constructor
  · intro s _
    obtain ⟨g, hg, hsh, hlen, hent⟩ := grad_num_ok_entries fn arg (.pyFloat s)
      (List.replicate arg.size s) rfl
    refine ⟨g, hg, hsh, hlen, fun i hi => ?_⟩
    rw [hent i hi, grad_entry_eq_perturb]
    simp [List.getD, List.getElem?_replicate, hi]
  · intro st _ _ _
    obtain ⟨g, hg, hsh, hlen, hent⟩ := grad_num_ok_entries fn arg (.ndarray st)
      st.ravel.data rfl
    refine ⟨g, hg, hsh, hlen, fun i hi => ?_⟩
    rw [hent i hi, grad_entry_eq_perturb]
    rfl

/-- A concrete scalar objective and argument used by the witnesses. -/
def exFn : NDArr ℚ → ℚ := fun a => npSum (a.emul a)

/-- A concrete 2-element argument array used by the witnesses. -/
def exArr : NDArr ℚ := ⟨[2], [1, 2]⟩

/-- Witness for C2 at `fn(x) = Σ x_i^2`, `arg = [1, 2]`, scalar step `1`. -/
theorem grad_num_matches_spec_witness :
    ∃ g, grad_num exFn exArr (.pyFloat 1) = Except.ok g ∧
      g.shape = exArr.shape ∧ g.data.length = exArr.size ∧
      ∀ i, i < exArr.size →
        g.data.getD i 0 = (exFn (perturbEntry exArr i 1) - exFn exArr) / 1 :=
  (grad_num_matches_spec exFn exArr (by decide)).1 1 one_ne_zero

/-- C10: `grad_num` applies a uniform scalar step only for a Python `float`;
with a Python `int` step the non-float branch executes `step_size.ravel()`,
which raises `AttributeError`, so no gradient is returned. -/
theorem grad_num_int_step_raises (fn : NDArr ℚ → ℚ) (arg : NDArr ℚ) (n : ℤ)
    (s : ℚ) (hsize : 1 < arg.size) :
    grad_num fn arg (.pyInt n) = Except.error PyErr.attributeError ∧
    grad_num_step (StepSize.pyFloat s) arg.size =
      Except.ok (List.replicate arg.size s) :=
  ⟨rfl, rfl⟩

/-- Witness for C10 at `arg = [1, 2]` (two entries), integer step `3`. -/
theorem grad_num_int_step_raises_witness :
    grad_num exFn exArr (.pyInt 3) = Except.error PyErr.attributeError ∧
    grad_num_step (StepSize.pyFloat (5 : ℚ)) exArr.size =
      Except.ok (List.replicate exArr.size 5) :=
  grad_num_int_step_raises exFn exArr 3 5 (by decide)

/-- Going through `vjp_maker_num` with an in-range target position yields the
`vjp` closure over that argument's shape and size. -/
lemma vjp_maker_num_ok {α : Type} [Add α] [Sub α] [Mul α] [Div α] [Zero α]
    (fn : List (NDArr α) → NDArr α) (arg_inds : List ℕ) (steps : List α)
    (ia : ℕ) (fn_out : NDArr α) (args : List (NDArr α))
    (hia : ia < arg_inds.length) (hk : arg_inds.getD ia 0 < args.length) :
    ((vjp_maker_num fn arg_inds steps).getD ia dfltMaker) fn_out args =
      Except.ok (vjp fn args (arg_inds.getD ia 0) (steps.getD ia 0)
        (args.getD (arg_inds.getD ia 0) NDArr.empty).shape
        (args.getD (arg_inds.getD ia 0) NDArr.empty).size fn_out) := by
  rw [vjp_maker_num_getD fn arg_inds steps ia hia]
  simp only [vjp_maker, hk, dite_true]
  rw [List.getD_eq_getElem _ _ hk]
  simp [List.get_eq_getElem]

/-- The result of the `vjp` closure: a flat array of length `num_p` whose entry
`p` is produced by iteration `p` of the perturbation loop. -/
lemma vjp_entries {α : Type} [Add α] [Sub α] [Mul α] [Div α] [Zero α]
    (fn : List (NDArr α) → NDArr α) (args : List (NDArr α)) (arg_ind : ℕ)
    (step : α) (shape : List ℕ) (num_p : ℕ) (fn_out v : NDArr α) :
    (vjp fn args arg_ind step shape num_p fn_out v).shape = [num_p] ∧
    (vjp fn args arg_ind step shape num_p fn_out v).data.length = num_p ∧
    ∀ p, p < num_p →
      (vjp fn args arg_ind step shape num_p fn_out v).data.getD p 0 =
        vjp_entry fn args arg_ind step shape fn_out v p := by
  refine ⟨rfl, ?_, ?_⟩
  · simp only [vjp]
    rw [foldl_set_range_eq_map]; simp
  · intro p hp
    simp only [vjp]
    rw [foldl_set_range_eq_map]
    simp [List.getD, List.getElem?_map, List.getElem?_range hp]

/-- The perturbed argument list built by the code (flatten, increment entry
`ip`, reshape to the argument's own shape, replace slot `arg_ind`) is the
spec's `perturbArg`. -/
lemma vjp_args_new_eq_perturbArg {α : Type} [Add α] [Zero α]
    (args : List (NDArr α)) (arg_ind : ℕ) (step : α) (ip : ℕ) :
    vjp_args_new args arg_ind step
      (args.getD arg_ind NDArr.empty).shape ip =
      perturbArg args arg_ind ip step := rfl

lemma sum_zipWith_mul (vs ds : List ℚ) (h : ds.length = vs.length) :
    (List.zipWith (fun x y => x * y) vs ds).foldr (fun x a => x + a) 0 =
      ∑ j in Finset.range vs.length, vs.getD j 0 * ds.getD j 0 := by
  induction vs generalizing ds with
  | nil => simp
  | cons x vs ih =>
      cases ds with
      | nil => simp at h
      | cons y ds =>
          simp only [List.zipWith_cons_cons, List.foldr_cons]
          rw [ih ds (by simpa using h), List.length_cons, Finset.sum_range_succ']
          simp [add_comm]

lemma getD_divS_sub (a b : List ℚ) (s : ℚ) (j : ℕ)
    (hja : j < a.length) (hjb : j < b.length) :
    ((List.zipWith (fun x y => x - y) a b).map (fun x => x / s)).getD j 0 =
      (a.getD j 0 - b.getD j 0) / s := by
  have hz : j < (List.zipWith (fun x y => x - y) a b).length := by
    rw [List.length_zipWith]; omega
  rw [List.getD_eq_getElem _ _ (by simpa using hz), List.getElem_map,
    List.getElem_zipWith, List.getD_eq_getElem _ _ hja,
    List.getD_eq_getElem _ _ hjb]

/-- C3: the closure produced by generator `ia` of `vjp_maker_num` maps a
cotangent `v` to a gradient whose slot `p` is the sum over all output entries
of `v` times the finite-difference partial
`(fn(args with argument k's entry p incremented by step) - fn_out) / step`,
all other arguments left at their original values. -/
theorem vjp_matches_spec
    (fn : List (NDArr ℚ) → NDArr ℚ) (arg_inds : List ℕ) (steps : List ℚ)
    (ia : ℕ) (fn_out v : NDArr ℚ) (args : List (NDArr ℚ))
    (hia : ia < arg_inds.length)
    (hk : arg_inds.getD ia 0 < args.length)
    (hout : ∀ p, p < (args.getD (arg_inds.getD ia 0) NDArr.empty).size →
      (fn (perturbArg args (arg_inds.getD ia 0) p (steps.getD ia 0))).data.length
        = v.data.length)
    (hfo : fn_out.data.length = v.data.length) :
    ∃ c, ((vjp_maker_num fn arg_inds steps).getD ia dfltMaker) fn_out args
        = Except.ok c ∧
      (c v).data.length = (args.getD (arg_inds.getD ia 0) NDArr.empty).size ∧
      ∀ p, p < (args.getD (arg_inds.getD ia 0) NDArr.empty).size →
        (c v).data.getD p 0 =
          ∑ j in Finset.range v.data.length,
            v.data.getD j 0 *
              (((fn (perturbArg args (arg_inds.getD ia 0) p
                    (steps.getD ia 0))).data.getD j 0
                - fn_out.data.getD j 0) / steps.getD ia 0) := by
  refine ⟨_, vjp_maker_num_ok fn arg_inds steps ia fn_out args hia hk, ?_, ?_⟩
  · exact (vjp_entries fn args _ _ _ _ fn_out v).2.1
  · intro p hp
    rw [(vjp_entries fn args _ _ _ _ fn_out v).2.2 p hp]
    simp only [vjp_entry, vjp_args_new_eq_perturbArg, npSum, NDArr.emul,
      NDArr.divS, NDArr.sub]
    have hlenout := hout p hp
    have hd : ((List.zipWith (fun x y => x - y)
        (fn (perturbArg args (arg_inds.getD ia 0) p (steps.getD ia 0))).data
        fn_out.data).map (fun x => x / steps.getD ia 0)).length
        = v.data.length := by
      rw [List.length_map, List.length_zipWith, hlenout, hfo, min_self]
    rw [sum_zipWith_mul _ _ hd]
    refine Finset.sum_congr rfl (fun j hj => ?_)
    have hjv : j < v.data.length := Finset.mem_range.mp hj
    rw [getD_divS_sub _ _ _ _ (by rw [hlenout]; exact hjv) (by rw [hfo]; exact hjv)]

/-- The elementwise-product primitive `fn(a, b) = a * b` from the spec's
scenario (§8), used by the vjp witnesses. -/
def exVjpFn : List (NDArr ℚ) → NDArr ℚ := fun args =>
  (args.getD 0 NDArr.empty).emul (args.getD 1 NDArr.empty)

/-- Concrete first argument `a = [2, 3]`. -/
def exA : NDArr ℚ := ⟨[2], [2, 3]⟩

/-- Concrete second argument `b = [5, 7]`. -/
def exB : NDArr ℚ := ⟨[2], [5, 7]⟩

/-- Concrete cotangent `v = [1, 1]`. -/
def exV : NDArr ℚ := ⟨[2], [1, 1]⟩

/-- Recorded output `fn(a, b) = [10, 21]`. -/
def exOut : NDArr ℚ := ⟨[2], [10, 21]⟩

/-- Witness for C3 at the spec's scenario with step `1`. -/
theorem vjp_matches_spec_witness :
    ∃ c, ((vjp_maker_num exVjpFn [0] [1]).getD 0 dfltMaker) exOut [exA, exB]
        = Except.ok c ∧
      (c exV).data.length = ([exA, exB].getD 0 NDArr.empty).size ∧
      ∀ p, p < ([exA, exB].getD 0 NDArr.empty).size →
        (c exV).data.getD p 0 =
          ∑ j in Finset.range exV.data.length,
            exV.data.getD j 0 *
              (((exVjpFn (perturbArg [exA, exB] (([0] : List ℕ).getD 0 0) p
                    (([1] : List ℚ).getD 0 0))).data.getD j 0
                - exOut.data.getD j 0) / ([1] : List ℚ).getD 0 0) :=
  vjp_matches_spec exVjpFn [0] [1] 0 exOut exV [exA, exB] (by decide) (by decide)
    (fun p hp => by
      have h2 : p < 2 := hp
      interval_cases p <;> rfl)
    rfl

/-- Identity-like primitive `fn(a) = a`, used by shape/error witnesses. -/
def exIdFn : List (NDArr ℚ) → NDArr ℚ := fun args => args.getD 0 NDArr.empty

/-- A column-shaped argument `(2, 1)` with entries `[4, 6]`. -/
def exC : NDArr ℚ := ⟨[2, 1], [4, 6]⟩

/-- A cotangent shaped like `exC`. -/
def exVC : NDArr ℚ := ⟨[2, 1], [1, 1]⟩

/-- Default closure used when reading the result of a `vjp_maker` call. -/
def dfltVjp {α : Type} : NDArr α → NDArr α := fun _ => NDArr.empty

/-- C4 counterexample: for the argument of shape `(2, 1)` the vjp closure
returns an array of shape `(2,)` — `np.zeros(num_p)` is returned without
reshaping — which is not the argument's shape `(2, 1)`. -/
theorem vjp_shape_counterexample :
    ((((vjp_maker_num exIdFn [0] [1]).getD 0 dfltMaker) exC [exC]).toOption.getD
        dfltVjp exVC).shape = [2] ∧
    exC.shape = [2, 1] ∧
    ((((vjp_maker_num exIdFn [0] [1]).getD 0 dfltMaker) exC [exC]).toOption.getD
        dfltVjp exVC).shape ≠ exC.shape := by
  refine ⟨rfl, rfl, ?_⟩
  decide

/-- C4 amended: the gradient array returned by the vjp closure has the flat
shape `(M,)`, where `M` is the targeted argument's size; it is not reshaped to
the argument's own shape. -/
theorem vjp_returns_flat_shape
    (fn : List (NDArr ℚ) → NDArr ℚ) (arg_inds : List ℕ) (steps : List ℚ)
    (ia : ℕ) (fn_out v : NDArr ℚ) (args : List (NDArr ℚ))
    (hia : ia < arg_inds.length) (hk : arg_inds.getD ia 0 < args.length) :
    ∃ c, ((vjp_maker_num fn arg_inds steps).getD ia dfltMaker) fn_out args
        = Except.ok c ∧
      (c v).shape = [(args.getD (arg_inds.getD ia 0) NDArr.empty).size] :=
  ⟨_, vjp_maker_num_ok fn arg_inds steps ia fn_out args hia hk, rfl⟩

/-- Witness for the amended C4 at the `(2, 1)`-shaped argument. -/
theorem vjp_returns_flat_shape_witness :
    ∃ c, ((vjp_maker_num exIdFn [0] [1]).getD 0 dfltMaker) exC [exC]
        = Except.ok c ∧
      (c exVC).shape = [([exC].getD (([0] : List ℕ).getD 0 0) NDArr.empty).size] :=
  vjp_returns_flat_shape exIdFn [0] [1] 0 exC exVC [exC] (by decide) (by decide)

/-- C6 counterexample: with `fn` of arity 1 and `arg_inds = [5]`, the factory
call itself completes normally (returning one generator); the `IndexError`
surfaces only when the produced generator is invoked with the actual
arguments. -/
theorem vjp_out_of_range_counterexample :
    (vjp_maker_num exIdFn [5] [1]).length = 1 ∧
    ((vjp_maker_num exIdFn [5] [1]).getD 0 dfltMaker) exC [exC]
      = Except.error PyErr.indexError := ⟨rfl, rfl⟩

/-- C6 amended: `vjp_maker_num` performs no validation of `arg_inds` at
factory-construction time — it always returns one generator per entry of
`arg_inds` — and an out-of-range target position is reported as an
`IndexError` only when the produced generator is invoked with
`(fn_out, *args)`. -/
theorem vjp_out_of_range_fails_at_invocation
    (fn : List (NDArr ℚ) → NDArr ℚ) (arg_inds : List ℕ) (steps : List ℚ) :
    (vjp_maker_num fn arg_inds steps).length = arg_inds.length ∧
    ∀ (ia : ℕ) (fn_out : NDArr ℚ) (args : List (NDArr ℚ)),
      ia < arg_inds.length → args.length ≤ arg_inds.getD ia 0 →
      ((vjp_maker_num fn arg_inds steps).getD ia dfltMaker) fn_out args
        = Except.error PyErr.indexError := by
  refine ⟨by simp [vjp_maker_num], fun ia fn_out args hia hoor => ?_⟩
  rw [vjp_maker_num_getD fn arg_inds steps ia hia]
  simp only [vjp_maker]
  rw [dif_neg (by omega)]

/-- Witness for the amended C6. -/
theorem vjp_out_of_range_fails_at_invocation_witness :
    ((vjp_maker_num exIdFn [5] [1]).getD 0 dfltMaker) exC [exC]
      = Except.error PyErr.indexError :=
  (vjp_out_of_range_fails_at_invocation exIdFn [5] [1]).2 0 exC [exC]
    (by decide) (by decide)

/-- Wraps a scalar-valued objective as a one-argument primitive whose output
is a 0-d array holding the scalar, the way a scalar-output `fn` appears to
`vjp_maker_num`. -/
def scalarWrap (fns : NDArr ℚ → ℚ) : List (NDArr ℚ) → NDArr ℚ :=
  fun l => ⟨[], [fns (l.getD 0 NDArr.empty)]⟩

lemma vjp_entry_scalar (fns : NDArr ℚ → ℚ) (arg : NDArr ℚ) (s : ℚ) (i : ℕ) :
    vjp_entry (scalarWrap fns) [arg] 0 s arg.shape (scalarWrap fns [arg])
        ⟨[], [1]⟩ i =
      (fns (perturbEntry arg i s) - fns arg) / s := by
  simp only [vjp_entry, vjp_args_new, scalarWrap, npSum, NDArr.emul, NDArr.sub,
    NDArr.divS, NDArr.flatten, NDArr.reshape, perturbEntry,
    List.getD_cons_zero, List.set_cons_zero, List.zipWith_cons_cons,
    List.zipWith_nil_right, List.map_cons, List.map_nil, List.foldr_cons,
    List.foldr_nil]
  rw [one_mul, add_zero]

lemma grad_entry_pyFloat (fns : NDArr ℚ → ℚ) (arg : NDArr ℚ) (s : ℚ) (i : ℕ)
    (hi : i < arg.size) :
    grad_entry fns arg (List.replicate arg.size s) (fns arg) i =
      (fns (perturbEntry arg i s) - fns arg) / s := by
  rw [grad_entry_eq_perturb]
  simp [List.getD, List.getElem?_replicate, hi]

/-- C7: for a scalar-output function, the gradient computed through
`vjp_maker_num` with cotangent `1` and `fn_out = fn(args)` agrees entrywise
with `grad_num` at the same step size — in this exact-arithmetic model they
are equal outright, hence within any tolerance. -/
theorem vjp_scalar_agrees_grad_num (fns : NDArr ℚ → ℚ) (arg : NDArr ℚ) (s : ℚ)
    (hs : s ≠ 0) :
    ∃ c g, ((vjp_maker_num (scalarWrap fns) [0] [s]).getD 0 dfltMaker)
        (scalarWrap fns [arg]) [arg] = Except.ok c ∧
      grad_num fns arg (.pyFloat s) = Except.ok g ∧
      (c ⟨[], [1]⟩).data = g.data := by
  have hg : grad_num fns arg (.pyFloat s) = Except.ok ⟨arg.shape,
      (List.range arg.size).map
        (grad_entry fns arg (List.replicate arg.size s) (fns arg))⟩ := by
    simp only [grad_num, grad_num_step, Except.map]
    rw [foldl_set_range_eq_map]
  refine ⟨_, _, vjp_maker_num_ok (scalarWrap fns) [0] [s] 0
    (scalarWrap fns [arg]) [arg] (by decide) (by simp), hg, ?_⟩
  simp only [vjp]
  rw [foldl_set_range_eq_map]
  refine List.map_congr_left (fun i hi => ?_)
  have hi' : i < arg.size := List.mem_range.mp hi
  rw [grad_entry_pyFloat fns arg s i hi']
  exact vjp_entry_scalar fns arg s i

/-- Witness for C7 at `fn(x) = Σ x_i^2`, `arg = [1, 2]`, step `1`. -/
theorem vjp_scalar_agrees_grad_num_witness :
    ∃ c g, ((vjp_maker_num (scalarWrap exFn) [0] [(1 : ℚ)]).getD 0 dfltMaker)
        (scalarWrap exFn [exArr]) [exArr] = Except.ok c ∧
      grad_num exFn exArr (.pyFloat 1) = Except.ok g ∧
      (c ⟨[], [1]⟩).data = g.data :=
  vjp_scalar_agrees_grad_num exFn exArr 1 one_ne_zero

/-! Lemmas for linearity of the vjp closure in its cotangent. -/

lemma sum_zipWith_mul_add (v1 v2 d : List ℚ) (h : v1.length = v2.length) :
    (List.zipWith (fun x y => x * y) (List.zipWith (fun x y => x + y) v1 v2) d).foldr
        (fun x a => x + a) 0 =
      (List.zipWith (fun x y => x * y) v1 d).foldr (fun x a => x + a) 0 +
      (List.zipWith (fun x y => x * y) v2 d).foldr (fun x a => x + a) 0 := by
  induction v1 generalizing v2 d with
  | nil =>
      cases v2 with
      | nil => simp
      | cons y v2 => simp at h
  | cons x v1 ih =>
      cases v2 with
      | nil => simp at h
      | cons y v2 =>
          cases d with
          | nil => simp
          | cons z d =>
              simp only [List.zipWith_cons_cons, List.foldr_cons]
              rw [ih v2 d (by simpa using h)]
              ring

lemma sum_zipWith_mul_smul (k : ℚ) (v d : List ℚ) :
    (List.zipWith (fun x y => x * y) (v.map (fun x => k * x)) d).foldr
        (fun x a => x + a) 0 =
      k * (List.zipWith (fun x y => x * y) v d).foldr (fun x a => x + a) 0 := by
  induction v generalizing d with
  | nil => simp
  | cons x v ih =>
      cases d with
      | nil => simp
      | cons z d =>
          simp only [List.map_cons, List.zipWith_cons_cons, List.foldr_cons]
          rw [ih d]
          ring

lemma zipWith_map_same {α β : Type} (f g : α → β) (h : β → β → β) (l : List α) :
    List.zipWith h (l.map f) (l.map g) = l.map (fun x => h (f x) (g x)) := by
  induction l with
  | nil => rfl
  | cons x l ih => simp [ih]

lemma vjp_entry_add (fn : List (NDArr ℚ) → NDArr ℚ) (args : List (NDArr ℚ))
    (arg_ind : ℕ) (step : ℚ) (shape : List ℕ) (fn_out v1 v2 : NDArr ℚ)
    (h : v1.data.length = v2.data.length) (ip : ℕ) :
    vjp_entry fn args arg_ind step shape fn_out (v1.add v2) ip =
      vjp_entry fn args arg_ind step shape fn_out v1 ip +
      vjp_entry fn args arg_ind step shape fn_out v2 ip := by
  simp only [vjp_entry, npSum, NDArr.emul, NDArr.add]
  exact sum_zipWith_mul_add v1.data v2.data _ h

lemma vjp_entry_smul (fn : List (NDArr ℚ) → NDArr ℚ) (args : List (NDArr ℚ))
    (arg_ind : ℕ) (step : ℚ) (shape : List ℕ) (fn_out v : NDArr ℚ) (k : ℚ)
    (ip : ℕ) :
    vjp_entry fn args arg_ind step shape fn_out (NDArr.smul k v) ip =
      k * vjp_entry fn args arg_ind step shape fn_out v ip := by
  simp only [vjp_entry, npSum, NDArr.emul, NDArr.smul]
  exact sum_zipWith_mul_smul k v.data _

/-- C9: each vjp closure produced by `vjp_maker_num` is linear in its
cotangent: it maps sums of (equal-length) cotangents to sums of gradients and
scalar multiples to scalar multiples. -/
theorem vjp_linear_in_cotangent
    (fn : List (NDArr ℚ) → NDArr ℚ) (arg_inds : List ℕ) (steps : List ℚ)
    (ia : ℕ) (fn_out : NDArr ℚ) (args : List (NDArr ℚ))
    (hia : ia < arg_inds.length) (hk : arg_inds.getD ia 0 < args.length) :
    ∃ c, ((vjp_maker_num fn arg_inds steps).getD ia dfltMaker) fn_out args
        = Except.ok c ∧
      (∀ v1 v2 : NDArr ℚ, v1.data.length = v2.data.length →
        c (v1.add v2) = (c v1).add (c v2)) ∧
      (∀ (k : ℚ) (v : NDArr ℚ), c (NDArr.smul k v) = NDArr.smul k (c v)) := by
  refine ⟨_, vjp_maker_num_ok fn arg_inds steps ia fn_out args hia hk, ?_, ?_⟩
  · intro v1 v2 h
    simp only [vjp, NDArr.add]
    rw [foldl_set_range_eq_map, foldl_set_range_eq_map, foldl_set_range_eq_map,
      zipWith_map_same]
    refine congrArg _ (List.map_congr_left (fun ip _ => ?_))
    exact vjp_entry_add fn args _ _ _ fn_out v1 v2 h ip
  · intro k v
    simp only [vjp, NDArr.smul]
    rw [foldl_set_range_eq_map, foldl_set_range_eq_map, List.map_map]
    refine congrArg _ (List.map_congr_left (fun ip _ => ?_))
    exact vjp_entry_smul fn args _ _ _ fn_out v k ip

/-- Witness for C9 at the spec-scenario primitive and arguments. -/
theorem vjp_linear_in_cotangent_witness :
    ∃ c, ((vjp_maker_num exVjpFn [0] [1]).getD 0 dfltMaker) exOut [exA, exB]
        = Except.ok c ∧
      (∀ v1 v2 : NDArr ℚ, v1.data.length = v2.data.length →
        c (v1.add v2) = (c v1).add (c v2)) ∧
      (∀ (k : ℚ) (v : NDArr ℚ), c (NDArr.smul k v) = NDArr.smul k (c v)) :=
  vjp_linear_in_cotangent exVjpFn [0] [1] 0 exOut [exA, exB]
    (by decide) (by decide)

/-- Abstraction of an IEEE-754 double, for the divide-by-zero behaviour: a
value is either an exact finite number or `nonfin`, standing for any
non-finite double (`+inf`, `-inf` or `nan`).  The operations agree with IEEE
on every case the theorems below exercise: finite-by-finite arithmetic is
exact, `x / 0` is non-finite for every `x` (numpy emits a `RuntimeWarning`
but raises nothing), and any addition, subtraction or multiplication with a
non-finite operand is non-finite.  The one corner the abstraction collapses —
`finite / inf = 0` — is a division by a non-finite step, which no theorem
performs. -/
inductive Val where
  | fin (q : ℚ)
  | nonfin
deriving DecidableEq, Repr

instance : Zero Val := ⟨Val.fin 0⟩

instance : Add Val :=
  ⟨fun a b => match a, b with
    | .fin x, .fin y => .fin (x + y)
    | _, _ => .nonfin⟩

instance : Sub Val :=
  ⟨fun a b => match a, b with
    | .fin x, .fin y => .fin (x - y)
    | _, _ => .nonfin⟩

instance : Mul Val :=
  ⟨fun a b => match a, b with
    | .fin x, .fin y => .fin (x * y)
    | _, _ => .nonfin⟩

instance : Div Val :=
  ⟨fun a b => match a, b with
    | .fin x, .fin y => if y = 0 then .nonfin else .fin (x / y)
    | _, _ => .nonfin⟩

lemma val_div_fin_zero (x : Val) : x / Val.fin 0 = Val.nonfin := by
  cases x <;> rfl

lemma val_mul_nonfin (x : Val) : x * Val.nonfin = Val.nonfin := by
  cases x <;> rfl

lemma val_nonfin_add (y : Val) : Val.nonfin + y = Val.nonfin := by
  cases y <;> rfl

lemma list_map_const_range {α : Type} (N : ℕ) (c : α) :
    (List.range N).map (fun _ => c) = List.replicate N c := by
  induction N with
  | zero => rfl
  | succ n ih => rw [List.range_succ, List.map_append, ih]; simp [List.replicate_succ']

lemma val_getD_replicate_zero (N i : ℕ) :
    (List.replicate N (Val.fin 0)).getD i 0 = Val.fin 0 := by
  rcases Nat.lt_or_ge i N with h | h
  · simp [List.getD, List.getElem?_replicate, h]
  · rw [List.getD_eq_default _ _ (by simpa using h)]; rfl

lemma mem_zipWith_mul_nonfin (vs ds : List Val)
    (hd : ∀ d ∈ ds, d = Val.nonfin) :
    ∀ z ∈ List.zipWith (fun x y => x * y) vs ds, z = Val.nonfin := by
  induction vs generalizing ds with
  | nil => intro z hz; simp at hz
  | cons x vs ih =>
      cases ds with
      | nil => intro z hz; simp at hz
      | cons y ds =>
          intro z hz
          rcases List.mem_cons.mp hz with hz | hz
          · rw [hz, hd y (List.mem_cons_self y ds)]; exact val_mul_nonfin x
          · exact ih ds (fun d hdm => hd d (List.mem_cons_of_mem y hdm)) z hz

lemma sum_all_nonfin (l : List Val) (hne : l ≠ [])
    (h : ∀ z ∈ l, z = Val.nonfin) :
    l.foldr (fun x a => x + a) 0 = Val.nonfin := by
  cases l with
  | nil => exact absurd rfl hne
  | cons x rest =>
      rw [List.foldr_cons, h x (List.mem_cons_self x rest), val_nonfin_add]

/-- C5 counterexample: with a zero step, `grad_num` returns normally — the
result is `Except.ok`, not an error — and its entries are the silently
propagated non-finite values of IEEE division by zero; likewise the vjp
closure built with step `0.0` returns a gradient of non-finite entries. -/
theorem zero_step_counterexample :
    grad_num (fun a => npSum a) (⟨[2], [Val.fin 1, Val.fin 2]⟩ : NDArr Val)
        (.pyFloat (Val.fin 0)) =
      Except.ok ⟨[2], [Val.nonfin, Val.nonfin]⟩ ∧
    ((((vjp_maker_num (fun args => args.getD 0 NDArr.empty) [0] [Val.fin 0]).getD
          0 dfltMaker) (⟨[1], [Val.fin 2]⟩ : NDArr Val)
          [⟨[1], [Val.fin 2]⟩]).toOption.getD dfltVjp) ⟨[1], [Val.fin 1]⟩ =
      ⟨[1], [Val.nonfin]⟩ :=
  ⟨rfl, rfl⟩

/-- C5 amended: a zero step is neither rejected nor does it raise: `grad_num`
returns `Except.ok` with every gradient entry non-finite, and a vjp closure
configured with step `0.0` returns `Except.ok` and a gradient all of whose
entries are non-finite (given a nonempty cotangent and nonempty outputs, so
that each accumulated sum has at least one term). -/
theorem zero_step_silent_nonfinite :
    (∀ (fn : NDArr Val → Val) (arg : NDArr Val),
      grad_num fn arg (.pyFloat (Val.fin 0)) =
        Except.ok ⟨arg.shape, List.replicate arg.size Val.nonfin⟩) ∧
    (∀ (fn : List (NDArr Val) → NDArr Val) (arg_inds : List ℕ)
        (steps : List Val) (ia : ℕ) (fn_out v : NDArr Val)
        (args : List (NDArr Val)),
      ia < arg_inds.length → arg_inds.getD ia 0 < args.length →
      steps.getD ia 0 = Val.fin 0 →
      v.data ≠ [] → fn_out.data ≠ [] →
      (∀ p, (fn (vjp_args_new args (arg_inds.getD ia 0) (Val.fin 0)
          (args.getD (arg_inds.getD ia 0) NDArr.empty).shape p)).data ≠ []) →
      ∃ c, ((vjp_maker_num fn arg_inds steps).getD ia dfltMaker) fn_out args
          = Except.ok c ∧
        c v = ⟨[(args.getD (arg_inds.getD ia 0) NDArr.empty).size],
          List.replicate (args.getD (arg_inds.getD ia 0) NDArr.empty).size
            Val.nonfin⟩) := by
  constructor
  · intro fn arg
    simp only [grad_num, grad_num_step, Except.map]
    rw [foldl_set_range_eq_map]
    have he : ∀ i ∈ List.range arg.size,
        grad_entry fn arg (List.replicate arg.size (Val.fin 0)) (fn arg) i =
          Val.nonfin := by
      intro i _
      rw [grad_entry_eq_perturb, val_getD_replicate_zero, val_div_fin_zero]
    rw [List.map_congr_left he, list_map_const_range]
  · intro fn arg_inds steps ia fn_out v args hia hk hstep hv hfo hout
    refine ⟨_, vjp_maker_num_ok fn arg_inds steps ia fn_out args hia hk, ?_⟩
    rw [hstep]
    simp only [vjp]
    rw [foldl_set_range_eq_map]
    have he : ∀ p ∈ List.range (args.getD (arg_inds.getD ia 0) NDArr.empty).size,
        vjp_entry fn args (arg_inds.getD ia 0) (Val.fin 0)
          (args.getD (arg_inds.getD ia 0) NDArr.empty).shape fn_out v p =
          Val.nonfin := by
      intro p _
      simp only [vjp_entry, npSum, NDArr.emul, NDArr.divS, NDArr.sub]
      refine sum_all_nonfin _ ?_ (mem_zipWith_mul_nonfin _ _ ?_)
      · rw [Ne, List.zipWith_eq_nil_iff]
        push_neg
        refine ⟨hv, ?_⟩
        rw [Ne, List.map_eq_nil_iff, List.zipWith_eq_nil_iff]
        push_neg
        exact ⟨hout p, hfo⟩
      · intro d hd
        rcases List.mem_map.mp hd with ⟨x, _, hx⟩
        rw [← hx]; exact val_div_fin_zero x
    rw [List.map_congr_left he, list_map_const_range]

/-- Witness for the amended C5: the vjp part applied at the concrete
identity primitive, one-element argument and cotangent, with step `0.0`. -/
theorem zero_step_silent_nonfinite_witness :
    ∃ c, ((vjp_maker_num (fun args => args.getD 0 NDArr.empty) [0]
          [Val.fin 0]).getD 0 dfltMaker) (⟨[1], [Val.fin 2]⟩ : NDArr Val)
          [⟨[1], [Val.fin 2]⟩] = Except.ok c ∧
      c ⟨[1], [Val.fin 1]⟩ =
        ⟨[([(⟨[1], [Val.fin 2]⟩ : NDArr Val)].getD (([0] : List ℕ).getD 0 0)
            NDArr.empty).size],
          List.replicate ([(⟨[1], [Val.fin 2]⟩ : NDArr Val)].getD
            (([0] : List ℕ).getD 0 0) NDArr.empty).size Val.nonfin⟩ :=
  zero_step_silent_nonfinite.2 (fun args => args.getD 0 NDArr.empty) [0]
    [Val.fin 0] 0 ⟨[1], [Val.fin 2]⟩ ⟨[1], [Val.fin 1]⟩ [⟨[1], [Val.fin 2]⟩]
    (by decide) (by decide) rfl (by decide) (by decide)
    (fun p => by
      rcases p with _ | n <;>
        simp [vjp_args_new, NDArr.empty, NDArr.flatten, NDArr.reshape])

/-- The names bound at module scope in src/ceviche/utils.py: its imports
(lines 1-7, 114-116, 194-196) and its top-level `def`s. -/
def utilsModuleScope : List String :=
  ["np", "sp", "copy", "plt", "make_vjp", "npa",
   "make_sparse", "grad_num", "circ2eps", "grid_coords", "vjp_maker_num",
   "_make_vjp", "_make_jvp", "unary_to_nary", "primitive", "defvjp_argnum",
   "vspace", "jacobian_forward", "aniplot", "measure_fields",
   "fft", "fftfreq", "stft", "specshow",
   "get_spectrum", "get_max_power_freq", "get_spectral_power",
   "plot_spectral_power"]

/-- The local scope of `jacobian_forward`'s body (lines 118-132): its
parameters and the names its statements assign. -/
def jacobianForwardLocalScope : List String :=
  ["fn", "x", "vjp", "ans", "ans_vspace", "jacobian_shape", "grads"]

/-- The Python builtins referenced anywhere in utils.py. -/
def pyBuiltins : List String :=
  ["range", "len", "list", "float", "type", "print", "format",
   "enumerate", "isinstance", "map"]

/-- CPython name resolution for a name read inside `jacobian_forward`'s body:
local scope, then the enclosing module scope, then builtins. -/
def pyResolves (name : String) : Bool :=
  jacobianForwardLocalScope.contains name || utilsModuleScope.contains name ||
    pyBuiltins.contains name

/-- Lines 118-132 of utils.py: `jacobian_forward`'s produced function applied
at `x`.  Its first statement (line 128) is `vjp, ans = _make_vjp(fun, x)`,
but the parameter is named `fn` (line 119) and `fun` is bound nowhere, so
CPython raises `NameError: name 'fun' is not defined` before any numeric work.
`fallback` stands for what the rest of the body would compute if the name
resolved; it is never reached. -/
def jacobian_forward {α : Type}
    (fallback : NDArr α → Except PyErr (NDArr α)) (x : NDArr α) :
    Except PyErr (NDArr α) :=
  if pyResolves "fun" then fallback x else Except.error PyErr.nameError

/-- C1 (code bug): the free name `fun` in `jacobian_forward`'s body does not
resolve, so every call of the produced jacobian function raises `NameError`
instead of returning the dense Jacobian; in particular it is evaluated here at
the concrete point `x = [1, 2]` with an identity fallback. -/
theorem jacobian_forward_name_error :
    pyResolves "fun" = false ∧
    (∀ (fallback : NDArr ℚ → Except PyErr (NDArr ℚ)) (x : NDArr ℚ),
      jacobian_forward fallback x = Except.error PyErr.nameError) ∧
    jacobian_forward (fun a => Except.ok a) (⟨[2], [1, 2]⟩ : NDArr ℚ) =
      Except.error PyErr.nameError := by
  have h : pyResolves "fun" = false := rfl
  exact ⟨h, fun fb x => by simp [jacobian_forward, h], by
    simp [jacobian_forward, h]⟩

/-! Store-passing embedding, used for the frame property: numpy buffers live
in a store, arrays are buffer references, and the copies (`copy.copy`,
`flatten`) versus views (`ravel`, `reshape`) and in-place writes of the code
are explicit. -/

/-- A store of numpy buffers: `next` is the next fresh buffer id, `mem b` the
contents of buffer `b`. -/
structure Store (α : Type) where
  next : ℕ
  mem : ℕ → List α

/-- Allocate a fresh buffer holding `d`; returns the new store and the id. -/
def Store.alloc {α : Type} (s : Store α) (d : List α) : Store α × ℕ :=
  (⟨s.next + 1, fun b => if b = s.next then d else s.mem b⟩, s.next)

/-- In-place update `buffer[i] = x` of buffer `b`. -/
def Store.write {α : Type} (s : Store α) (b i : ℕ) (x : α) : Store α :=
  ⟨s.next, fun b2 => if b2 = b then (s.mem b).set i x else s.mem b2⟩

/-- An array in store terms: a buffer reference plus a shape.  Views (from
`ravel`/`reshape`) share `buf`; copies get a fresh one. -/
structure Arr where
  buf : ℕ
  shape : List ℕ

/-- numpy `a.size` of a store-level array. -/
def Arr.size (a : Arr) : ℕ := a.shape.prod

/-- One iteration of the store-level `grad_num` loop (utils.py lines 35-38):
allocate the copy `arg_new` of the ravel view of `arg`, write the perturbed
entry in place, apply `fn` to the reshaped view, and write slot `i` of the
gradient buffer `gbuf`. -/
def grad_num_st_iter {α : Type} [Add α] [Sub α] [Div α] [Zero α]
    (fn : NDArr α → α) (arg : Arr) (shape : List ℕ) (step : List α)
    (f_old : α) (gbuf : ℕ) (st : Store α) (i : ℕ) : Store α :=
  let st1 := (st.alloc (st.mem arg.buf)).1
  let nbuf := (st.alloc (st.mem arg.buf)).2
  let st2 := st1.write nbuf i ((st1.mem nbuf).getD i 0 + step.getD i 0)
  let f_new_i := fn ⟨shape, st2.mem nbuf⟩
  st2.write gbuf i ((f_new_i - f_old) / step.getD i 0)

/-- Store-passing embedding of `grad_num` (utils.py lines 19-40):
`gradient = np.zeros((N,))` allocates; `copy.copy(arg.ravel())` reads `arg`'s
buffer through the ravel view and allocates a fresh copy; `arg_new[i] +=
step[i]` and `gradient[i] = …` write in place; the final
`gradient.reshape(shape)` is a view of the gradient buffer.  `fn` is a pure
function of the array value passed to it. -/
def grad_num_st {α : Type} [Add α] [Sub α] [Div α] [Zero α]
    (fn : NDArr α → α) (s0 : Store α) (arg : Arr) (step_size : StepSize α) :
    Store α × Except PyErr Arr :=
  let N := arg.size
  let shape := arg.shape
  let s1 := (s0.alloc (List.replicate N 0)).1
  let gbuf := (s0.alloc (List.replicate N 0)).2
  let f_old := fn ⟨shape, s1.mem arg.buf⟩
  match grad_num_step step_size N with
  | .error e => (s1, .error e)
  | .ok step =>
      let sF := (List.range N).foldl
        (grad_num_st_iter fn arg shape step f_old gbuf) s1
      (sF, .ok ⟨gbuf, shape⟩)

/-- One iteration of the store-level `vjp` loop (utils.py lines 95-100):
allocate the flatten copy of `args[arg_ind]`, write the perturbed entry in
place, rebuild the argument list with a reshaped view of the copy, apply `fn`
to the values read from the store, and write slot `ip` of the result buffer
`vbuf`. -/
def vjp_st_iter {α : Type} [Add α] [Sub α] [Mul α] [Div α] [Zero α]
    (fn : List (NDArr α) → NDArr α) (args : List Arr) (arg_ind : ℕ) (step : α)
    (shape : List ℕ) (fn_out v : NDArr α) (vbuf : ℕ) (st : Store α) (ip : ℕ) :
    Store α :=
  let tgt := args.getD arg_ind ⟨0, []⟩
  let st1 := (st.alloc (st.mem tgt.buf)).1
  let rbuf := (st.alloc (st.mem tgt.buf)).2
  let st2 := st1.write rbuf ip ((st1.mem rbuf).getD ip 0 + step)
  let args_new := args.set arg_ind ⟨rbuf, shape⟩
  let dfn_darg := ((fn (args_new.map (fun a => ⟨a.shape, st2.mem a.buf⟩))).sub
    fn_out).divS step
  st2.write vbuf ip (npSum (v.emul dfn_darg))

/-- Store-passing embedding of the `vjp` closure (utils.py lines 91-102):
`vjp_num = np.zeros(num_p)` allocates; each iteration's
`args[arg_ind].flatten()` allocates a fresh copy of the target argument's
buffer, `args_rav[ip] += step` writes it in place, `args_new` rebinds slot
`arg_ind` to a reshaped view of the copy, and `vjp_num[ip] = …` writes the
result buffer.  `fn` consumes the array values read from the store. -/
def vjp_st {α : Type} [Add α] [Sub α] [Mul α] [Div α] [Zero α]
    (fn : List (NDArr α) → NDArr α) (s0 : Store α) (args : List Arr)
    (arg_ind : ℕ) (step : α) (shape : List ℕ) (num_p : ℕ)
    (fn_out v : NDArr α) : Store α × Arr :=
  let s1 := (s0.alloc (List.replicate num_p 0)).1
  let vbuf := (s0.alloc (List.replicate num_p 0)).2
  let sF := (List.range num_p).foldl
    (vjp_st_iter fn args arg_ind step shape fn_out v vbuf) s1
  (sF, ⟨vbuf, [num_p]⟩)

/-- The store evolved without touching any buffer below `n0`, and `next` stayed
at or above `n0`. -/
def PreservesBelow {α : Type} (n0 : ℕ) (s s2 : Store α) : Prop :=
  n0 ≤ s2.next ∧ ∀ b, b < n0 → s2.mem b = s.mem b

lemma preservesBelow_trans {α : Type} {n0 : ℕ} {s s2 s3 : Store α}
    (h1 : PreservesBelow n0 s s2) (h2 : PreservesBelow n0 s2 s3) :
    PreservesBelow n0 s s3 :=
  ⟨h2.1, fun b hb => (h2.2 b hb).trans (h1.2 b hb)⟩

lemma alloc_preservesBelow {α : Type} {n0 : ℕ} (s : Store α) (d : List α)
    (h : n0 ≤ s.next) : PreservesBelow n0 s (s.alloc d).1 := by
  refine ⟨by simp [Store.alloc]; omega, fun b hb => ?_⟩
  simp only [Store.alloc]
  rw [if_neg (by omega)]

lemma write_preservesBelow {α : Type} {n0 : ℕ} (s : Store α) (b i : ℕ) (x : α)
    (h : n0 ≤ s.next) (hb : n0 ≤ b) :
    PreservesBelow n0 s (s.write b i x) := by
  refine ⟨by simp [Store.write, h], fun b2 hb2 => ?_⟩
  simp only [Store.write]
  rw [if_neg (by omega)]

lemma foldl_preservesBelow {α : Type} (f : Store α → ℕ → Store α) (l : List ℕ)
    (s : Store α) (n0 : ℕ)
    (hstep : ∀ st i, n0 ≤ st.next → PreservesBelow n0 st (f st i))
    (h : n0 ≤ s.next) : PreservesBelow n0 s (l.foldl f s) := by
  induction l generalizing s with
  | nil => exact ⟨h, fun _ _ => rfl⟩
  | cons i rest ih =>
      exact preservesBelow_trans (hstep s i h) (ih (f s i) (hstep s i h).1)

lemma grad_num_st_frame {α : Type} [Add α] [Sub α] [Div α] [Zero α]
    (fn : NDArr α → α) (s0 : Store α) (arg : Arr) (step_size : StepSize α) :
    PreservesBelow s0.next s0 (grad_num_st fn s0 arg step_size).1 := by
  have h1 : PreservesBelow s0.next s0
      (s0.alloc (List.replicate arg.size 0)).1 :=
    alloc_preservesBelow s0 _ (le_refl _)
  dsimp only [grad_num_st]
  cases hst : grad_num_step step_size arg.size with
  | error e => exact h1
  | ok step =>
      dsimp only
      refine preservesBelow_trans h1 (foldl_preservesBelow _ _ _ _ ?_ h1.1)
      intro st i hn
      dsimp only [grad_num_st_iter]
      refine preservesBelow_trans (alloc_preservesBelow st (st.mem arg.buf) hn) ?_
      refine preservesBelow_trans (write_preservesBelow _ _ _ _ ?_ ?_)
        (write_preservesBelow _ _ _ _ ?_ ?_)
      · simp [Store.alloc]; omega
      · simp [Store.alloc]; omega
      · simp [Store.alloc, Store.write]; omega
      · simp [Store.alloc]

lemma vjp_st_frame {α : Type} [Add α] [Sub α] [Mul α] [Div α] [Zero α]
    (fn : List (NDArr α) → NDArr α) (s0 : Store α) (args : List Arr)
    (arg_ind : ℕ) (step : α) (shape : List ℕ) (num_p : ℕ)
    (fn_out v : NDArr α) :
    PreservesBelow s0.next s0
      (vjp_st fn s0 args arg_ind step shape num_p fn_out v).1 := by
  have h1 : PreservesBelow s0.next s0
      (s0.alloc (List.replicate num_p 0)).1 :=
    alloc_preservesBelow s0 _ (le_refl _)
  dsimp only [vjp_st]
  refine preservesBelow_trans h1 (foldl_preservesBelow _ _ _ _ ?_ h1.1)
  intro st ip hn
  dsimp only [vjp_st_iter]
  refine preservesBelow_trans
    (alloc_preservesBelow st (st.mem (args.getD arg_ind ⟨0, []⟩).buf) hn) ?_
  refine preservesBelow_trans (write_preservesBelow _ _ _ _ ?_ ?_)
    (write_preservesBelow _ _ _ _ ?_ ?_)
  · simp [Store.alloc]; omega
  · simp [Store.alloc]; omega
  · simp [Store.alloc, Store.write]; omega
  · simp [Store.alloc]

/-- C8: no pre-existing buffer is written by a `grad_num` call or by an
invocation of the vjp closure: every caller-supplied array (any reference
with `buf < next`, in particular `arg` and every element of `args`) holds
exactly its original contents afterwards — the perturbations only ever write
the fresh copies made by `copy.copy(arg.ravel())` / `args[arg_ind].flatten()`
and the freshly allocated result buffer. -/
theorem inputs_not_mutated
    (fn : NDArr ℚ → ℚ) (s0 : Store ℚ) (arg : Arr) (step_size : StepSize ℚ)
    (fnv : List (NDArr ℚ) → NDArr ℚ) (t0 : Store ℚ) (args : List Arr)
    (arg_ind : ℕ) (step : ℚ) (shape : List ℕ) (num_p : ℕ)
    (fn_out v : NDArr ℚ) :
    (∀ b, b < s0.next →
      ((grad_num_st fn s0 arg step_size).1).mem b = s0.mem b) ∧
    (∀ b, b < t0.next →
      ((vjp_st fnv t0 args arg_ind step shape num_p fn_out v).1).mem b =
        t0.mem b) :=
  ⟨fun b hb => (grad_num_st_frame fn s0 arg step_size).2 b hb,
   fun b hb =>
     (vjp_st_frame fnv t0 args arg_ind step shape num_p fn_out v).2 b hb⟩

/-- A concrete one-buffer store holding `[1, 2]` in buffer `0`. -/
def exStore : Store ℚ := ⟨1, fun b => if b = 0 then [1, 2] else []⟩

/-- A reference to buffer `0` viewed with shape `(2,)`. -/
def exRef : Arr := ⟨0, [2]⟩

/-- Witness for C8: after running `grad_num` and a vjp invocation on the
concrete store, the caller's buffer `0` still holds its original contents. -/
theorem inputs_not_mutated_witness :
    ((grad_num_st exFn exStore exRef (.pyFloat 1)).1).mem 0 = exStore.mem 0 ∧
    ((vjp_st exVjpFn exStore [exRef] 0 1 [2] 2 exOut exV).1).mem 0 =
      exStore.mem 0 :=
  ⟨(inputs_not_mutated exFn exStore exRef (.pyFloat 1) exVjpFn exStore [exRef]
      0 1 [2] 2 exOut exV).1 0 (by decide),
   (inputs_not_mutated exFn exStore exRef (.pyFloat 1) exVjpFn exStore [exRef]
      0 1 [2] 2 exOut exV).2 0 (by decide)⟩

lemma grad_num_st_iter_spec {α : Type} [Add α] [Sub α] [Div α] [Zero α]
    (fn : NDArr α → α) (arg : Arr) (step : List α) (f_old : α) (gbuf : ℕ)
    (st : Store α) (i : ℕ) (g base : List α)
    (hg : st.mem gbuf = g) (hb : st.mem arg.buf = base)
    (h1 : gbuf < st.next) (h2 : arg.buf < st.next) (h3 : arg.buf ≠ gbuf) :
    (grad_num_st_iter fn arg arg.shape step f_old gbuf st i).mem gbuf =
      g.set i (grad_entry fn ⟨arg.shape, base⟩ step f_old i) ∧
    (grad_num_st_iter fn arg arg.shape step f_old gbuf st i).mem arg.buf =
      base ∧
    gbuf < (grad_num_st_iter fn arg arg.shape step f_old gbuf st i).next ∧
    arg.buf < (grad_num_st_iter fn arg arg.shape step f_old gbuf st i).next := by
  have hgn : gbuf ≠ st.next := Nat.ne_of_lt h1
  have han : arg.buf ≠ st.next := Nat.ne_of_lt h2
  dsimp only [grad_num_st_iter, Store.alloc, Store.write]
  refine ⟨?_, ?_, by omega, by omega⟩
  · rw [if_pos rfl, if_neg hgn, if_neg hgn, hg]
    rw [if_pos rfl, if_pos rfl, hb]
    rfl
  · rw [if_neg h3, if_neg han, if_neg han, hb]

lemma grad_num_st_loop {α : Type} [Add α] [Sub α] [Div α] [Zero α]
    (fn : NDArr α → α) (arg : Arr) (step : List α) (f_old : α) (gbuf : ℕ)
    (l : List ℕ) :
    ∀ (st : Store α) (g base : List α),
      st.mem gbuf = g → st.mem arg.buf = base →
      gbuf < st.next → arg.buf < st.next → arg.buf ≠ gbuf →
      (l.foldl (grad_num_st_iter fn arg arg.shape step f_old gbuf) st).mem
          gbuf =
        l.foldl
          (fun g2 i => g2.set i (grad_entry fn ⟨arg.shape, base⟩ step f_old i))
          g := by
  induction l with
  | nil => intro st g base hg _ _ _ _; exact hg
  | cons i rest ih =>
      intro st g base hg hb h1 h2 h3
      obtain ⟨hg2, hb2, h12, h22⟩ :=
        grad_num_st_iter_spec fn arg step f_old gbuf st i g base hg hb h1 h2 h3
      exact ih _ _ _ hg2 hb2 h12 h22 h3

/-- The two embeddings of `grad_num` agree: for a valid argument reference
(a buffer already allocated in the store), reading the result view out of the
final store of `grad_num_st` yields exactly the pure `grad_num` of the
argument's value, with the same error behaviour. -/
lemma grad_num_st_agrees {α : Type} [Add α] [Sub α] [Div α] [Zero α]
    (fn : NDArr α → α) (s0 : Store α) (arg : Arr) (ss : StepSize α)
    (hab : arg.buf < s0.next) :
    ((grad_num_st fn s0 arg ss).2).map
        (fun r =>
          (⟨r.shape, (grad_num_st fn s0 arg ss).1.mem r.buf⟩ : NDArr α)) =
      grad_num fn ⟨arg.shape, s0.mem arg.buf⟩ ss := by
  have hsb : ((s0.alloc (List.replicate (arg.shape.prod) 0)).1).mem arg.buf =
      s0.mem arg.buf := by
    simp only [Store.alloc]
    rw [if_neg (Nat.ne_of_lt hab)]
  dsimp only [grad_num_st, Arr.size]
  cases hst : grad_num_step ss arg.shape.prod with
  | error e =>
      dsimp only [Except.map]
      simp only [grad_num, NDArr.size]
      rw [hst]
      rfl
  | ok step =>
      dsimp only [Except.map]
      simp only [grad_num, NDArr.size]
      rw [hst]
      dsimp only [Except.map]
      rw [hsb]
      refine congrArg Except.ok (congrArg (NDArr.mk arg.shape) ?_)
      refine grad_num_st_loop fn arg step _ _ (List.range arg.shape.prod)
        (s0.alloc (List.replicate arg.shape.prod 0)).1
        (List.replicate arg.shape.prod 0) (s0.mem arg.buf) ?_ hsb ?_ ?_ ?_
      · simp [Store.alloc]
      · simp [Store.alloc]
      · simp only [Store.alloc]; omega
      · exact Nat.ne_of_lt hab

lemma vjp_st_iter_spec {α : Type} [Add α] [Sub α] [Mul α] [Div α] [Zero α]
    (fn : List (NDArr α) → NDArr α) (s0 : Store α) (args : List Arr)
    (arg_ind : ℕ) (step : α) (shape : List ℕ) (fn_out v : NDArr α)
    (st : Store α) (ip : ℕ) (g : List α)
    (hk : arg_ind < args.length)
    (ha : ∀ a ∈ args, a.buf < s0.next)
    (hframe : ∀ b, b < s0.next → st.mem b = s0.mem b)
    (hg : st.mem s0.next = g)
    (hnext : s0.next < st.next) :
    (vjp_st_iter fn args arg_ind step shape fn_out v s0.next st ip).mem s0.next
        = g.set ip (vjp_entry fn
            (args.map (fun a => (⟨a.shape, s0.mem a.buf⟩ : NDArr α)))
            arg_ind step shape fn_out v ip) ∧
    (∀ b, b < s0.next →
      (vjp_st_iter fn args arg_ind step shape fn_out v s0.next st ip).mem b
        = s0.mem b) ∧
    s0.next <
      (vjp_st_iter fn args arg_ind step shape fn_out v s0.next st ip).next := by
  have hmem : args.getD arg_ind ⟨0, []⟩ ∈ args := by
    rw [List.getD_eq_getElem args _ hk]; exact List.getElem_mem hk
  have htgt : (args.getD arg_ind ⟨0, []⟩).buf < s0.next := ha _ hmem
  have hvn : s0.next ≠ st.next := Nat.ne_of_lt hnext
  dsimp only [vjp_st_iter, Store.alloc, Store.write]
  refine ⟨?_, ?_, by omega⟩
  · rw [if_pos rfl, if_neg hvn, if_neg hvn, hg]
    congr 1
    suffices hlist : (args.set arg_ind ⟨st.next, shape⟩).map
        (fun a => (⟨a.shape,
          if a.buf = st.next then
            ((if st.next = st.next then
                st.mem (args.getD arg_ind ⟨0, []⟩).buf
              else st.mem st.next).set ip
              (((if st.next = st.next then
                  st.mem (args.getD arg_ind ⟨0, []⟩).buf
                else st.mem st.next)).getD ip 0 + step))
          else if a.buf = st.next then
            st.mem (args.getD arg_ind ⟨0, []⟩).buf
          else st.mem a.buf⟩ : NDArr α)) =
        vjp_args_new (args.map (fun a => (⟨a.shape, s0.mem a.buf⟩ : NDArr α)))
          arg_ind step shape ip by
      rw [hlist]; rfl
    rw [List.map_set]
    have hmapeq : args.map (fun a => (⟨a.shape,
        if a.buf = st.next then
          ((if st.next = st.next then
              st.mem (args.getD arg_ind ⟨0, []⟩).buf
            else st.mem st.next).set ip
            (((if st.next = st.next then
                st.mem (args.getD arg_ind ⟨0, []⟩).buf
              else st.mem st.next)).getD ip 0 + step))
        else if a.buf = st.next then
          st.mem (args.getD arg_ind ⟨0, []⟩).buf
        else st.mem a.buf⟩ : NDArr α)) =
        args.map (fun a => (⟨a.shape, s0.mem a.buf⟩ : NDArr α)) := by
      refine List.map_congr_left (fun a hamem => ?_)
      have h1 : a.buf ≠ st.next := Nat.ne_of_lt
        (Nat.lt_trans (ha a hamem) hnext)
      rw [if_neg h1, if_neg h1, hframe a.buf (ha a hamem)]
    rw [hmapeq]
    dsimp only [vjp_args_new, NDArr.flatten, NDArr.reshape]
    have hget : (args.map (fun a => (⟨a.shape, s0.mem a.buf⟩ : NDArr α))).getD
        arg_ind NDArr.empty =
        ⟨(args.getD arg_ind ⟨0, []⟩).shape,
          s0.mem (args.getD arg_ind ⟨0, []⟩).buf⟩ := by
      rw [List.getD_eq_getElem _ _ (by simpa using hk), List.getElem_map,
        List.getD_eq_getElem args _ hk]
    rw [hget]
    refine congrArg _ ?_
    rw [hframe _ htgt]
    simp
  · intro b hb
    rw [if_neg (Nat.ne_of_lt hb),
      if_neg (show b ≠ st.next by omega),
      if_neg (show b ≠ st.next by omega), hframe b hb]

lemma vjp_st_loop {α : Type} [Add α] [Sub α] [Mul α] [Div α] [Zero α]
    (fn : List (NDArr α) → NDArr α) (s0 : Store α) (args : List Arr)
    (arg_ind : ℕ) (step : α) (shape : List ℕ) (fn_out v : NDArr α)
    (hk : arg_ind < args.length) (ha : ∀ a ∈ args, a.buf < s0.next)
    (l : List ℕ) :
    ∀ (st : Store α) (g : List α),
      (∀ b, b < s0.next → st.mem b = s0.mem b) →
      st.mem s0.next = g → s0.next < st.next →
      (l.foldl (vjp_st_iter fn args arg_ind step shape fn_out v s0.next)
          st).mem s0.next =
        l.foldl (fun g2 ip => g2.set ip (vjp_entry fn
          (args.map (fun a => (⟨a.shape, s0.mem a.buf⟩ : NDArr α)))
          arg_ind step shape fn_out v ip)) g := by
  induction l with
  | nil => intro st g _ hg _; exact hg
  | cons ip rest ih =>
      intro st g hframe hg hnext
      obtain ⟨hg2, hframe2, hnext2⟩ := vjp_st_iter_spec fn s0 args arg_ind
        step shape fn_out v st ip g hk ha hframe hg hnext
      exact ih _ _ hframe2 hg2 hnext2

/-- The two embeddings of the `vjp` closure agree: for valid argument
references (buffers already allocated in the store, target position in
range), reading the result out of the final store of `vjp_st` yields exactly
the pure `vjp` of the arguments' values. -/
lemma vjp_st_agrees {α : Type} [Add α] [Sub α] [Mul α] [Div α] [Zero α]
    (fn : List (NDArr α) → NDArr α) (s0 : Store α) (args : List Arr)
    (arg_ind : ℕ) (step : α) (shape : List ℕ) (num_p : ℕ)
    (fn_out v : NDArr α)
    (hk : arg_ind < args.length) (ha : ∀ a ∈ args, a.buf < s0.next) :
    (⟨((vjp_st fn s0 args arg_ind step shape num_p fn_out v).2).shape,
      ((vjp_st fn s0 args arg_ind step shape num_p fn_out v).1).mem
        ((vjp_st fn s0 args arg_ind step shape num_p fn_out v).2).buf⟩ :
          NDArr α) =
      vjp fn (args.map (fun a => (⟨a.shape, s0.mem a.buf⟩ : NDArr α)))
        arg_ind step shape num_p fn_out v := by
  dsimp only [vjp_st, Store.alloc, vjp]
  refine congrArg _ ?_
  refine vjp_st_loop fn s0 args arg_ind step shape fn_out v hk ha
    (List.range num_p) _ _ ?_ ?_ (by dsimp only; omega)
  · intro b hb
    dsimp only
    rw [if_neg (Nat.ne_of_lt hb)]
  · dsimp only
    rw [if_pos rfl]
